import Mathlib

/-!
Shallow embedding of the core of the `market-maker-rs` repository:
value types (`src/types`), the order-book and open-orders writers
(`src/implements/writers`), the depth-based offering policy
(`src/strategies/dbo.rs`), the pub/sub bus (`src/pubsub.rs`) and the
order service (`src/components/order_service.rs`), together with
theorems settling the specification claims about them.

Prices and amounts are `rust_decimal` fixed-point decimals in the source;
they are embedded as exact rationals (`Rat`), which is faithful for the
operations used here (addition, subtraction, comparison, exact equality).
Rust's in-place writer methods (`&mut self`, returning `Result<(), E>`)
are embedded as pure functions returning the pair of the result and the
state after the call, so that "state unchanged on error" is expressible.
-/

namespace MarketMaker

/-- Exact decimal prices, embedded as rationals. -/
abbrev Price := Rat

/-- Exact decimal amounts, embedded as rationals. -/
abbrev Amount := Rat

/-- Opaque exchange-assigned identifier of a public offer (a string in the source). -/
abbrev OfferId := String

/-- Opaque exchange-assigned identifier of an own order (a string in the source). -/
abbrev OrderId := String

/-- `Side` from `src/types/order.rs`. -/
inductive Side where
  | Ask : Side
  | Bid : Side
deriving DecidableEq, Repr

/-- `Side::opposite`. -/
def Side.opposite : Side → Side
  | .Ask => .Bid
  | .Bid => .Ask

/-- `Side::is_ask`. -/
def Side.isAsk : Side → Bool
  | .Ask => true
  | .Bid => false

/-- `Side::is_bid`. -/
def Side.isBid : Side → Bool
  | .Ask => false
  | .Bid => true

/-- `OrderType` from `src/types/order.rs`. -/
inductive OrderType where
  | Limit : OrderType
  | Market : OrderType
deriving DecidableEq, Repr

/-- `Offer` from `src/types/orderbook.rs`: a resting price level in the public book. -/
structure Offer where
  id : OfferId
  price : Price
  amount : Amount
deriving DecidableEq, Repr

/-- `Orderbook` from `src/types/orderbook.rs`. -/
structure Orderbook where
  timestamp : Nat
  asks : List Offer
  bids : List Offer
deriving DecidableEq, Repr

/-- `OrderState` from `src/types/order.rs`: an own resting order. -/
structure OrderState where
  id : OrderId
  side : Side
  price : Price
  amount : Amount
deriving DecidableEq, Repr

/-- `OpenOrders` from `src/types/order.rs`. -/
structure OpenOrders where
  timestamp : Nat
  orders : List OrderState
deriving DecidableEq, Repr

/-- `OpenOrders::asks`: own orders on the ask side, in container order. -/
def OpenOrders.asks (oo : OpenOrders) : List OrderState :=
  oo.orders.filter (fun os => os.side.isAsk)

/-- `OpenOrders::bids`: own orders on the bid side, in container order. -/
def OpenOrders.bids (oo : OpenOrders) : List OrderState :=
  oo.orders.filter (fun os => os.side.isBid)

/-- `Balances` from `src/types/inventory.rs`. -/
structure Balances where
  ba : Amount
  qa : Amount
deriving DecidableEq, Repr

/-- `Inventory` from `src/types/inventory.rs`. -/
inductive Inventory where
  | Position : Amount → Inventory
  | Balances : Balances → Inventory
deriving DecidableEq, Repr

/-- `Inventory::position`. -/
def Inventory.position : Inventory → Amount
  | .Position p => p
  | .Balances b => b.ba

/-- `MarketInfo` from `src/types/info.rs`. -/
structure MarketInfo where
  max_order_size : Amount
  min_order_size : Amount
  lot_size : Amount
  max_order_price : Price
  min_order_price : Price
  tick_size : Price
deriving DecidableEq, Repr

/-- `NewOrder` from `src/types/order.rs`. -/
structure NewOrder where
  order_type : OrderType
  order_side : Side
  price : Price
  amount : Amount
deriving DecidableEq, Repr

/-- `CancelOrder` from `src/types/order.rs`. -/
structure CancelOrder where
  id : OrderId
deriving DecidableEq, Repr

/-- `Order` from `src/types/order.rs`: an action emitted by a policy. -/
inductive Order where
  | New : NewOrder → Order
  | Cancel : CancelOrder → Order
deriving DecidableEq, Repr

/-- `Order::create`. -/
def Order.create (t : OrderType) (s : Side) (p : Price) (a : Amount) : Order :=
  .New ⟨t, s, p, a⟩

/-- `Order::cancel`. -/
def Order.cancel (id : OrderId) : Order :=
  .Cancel ⟨id⟩

/-- `OrderState::to_cancel_order`. -/
def OrderState.to_cancel_order (os : OrderState) : CancelOrder :=
  ⟨os.id⟩

/-! ## Order-book writer (`src/implements/writers/orderbook_writer.rs`) -/

/-- `UpdateOrderbookError`. -/
inductive UpdateOrderbookError where
  | AlreadyExists : OfferId → UpdateOrderbookError
  | OfferNotFound : OfferId → UpdateOrderbookError
deriving DecidableEq, Repr

/-- `OrderbookWriterResult<()>`. -/
abbrev OrderbookWriterResult := Except UpdateOrderbookError Unit

/-- `CreateOp` of the order-book writer. -/
structure ObCreateOp where
  timestamp : Nat
  side : Side
  id : OfferId
  price : Price
  amount : Amount
deriving DecidableEq, Repr

/-- `UpdateOp` of the order-book writer. -/
structure ObUpdateOp where
  timestamp : Nat
  side : Side
  id : OfferId
  price : Option Price
  amount : Option Amount
deriving DecidableEq, Repr

/-- `DeleteOp` of the order-book writer. -/
structure ObDeleteOp where
  timestamp : Nat
  side : Side
  id : OfferId
deriving DecidableEq, Repr

/-- `OrderbookWriteOp`. -/
inductive OrderbookWriteOp where
  | Snapshot : Orderbook → OrderbookWriteOp
  | Create : ObCreateOp → OrderbookWriteOp
  | Update : ObUpdateOp → OrderbookWriteOp
  | Delete : ObDeleteOp → OrderbookWriteOp
deriving DecidableEq, Repr

/-- `impl From<CreateOp> for Offer`. -/
def ObCreateOp.toOffer (op : ObCreateOp) : Offer :=
  ⟨op.id, op.price, op.amount⟩

/-- `OrderbookWriter::apply_snapshot`: replaces the target book wholesale. -/
def apply_snapshot (_b : Orderbook) (orderbook : Orderbook) :
    OrderbookWriterResult × Orderbook :=
  (Except.ok (), orderbook)

/-- `OrderbookWriter::apply_create`: inserts the offer at the first position
whose price is beyond the new price (strictly greater for asks, strictly
smaller for bids), or at the end, then sets the book timestamp. -/
def apply_create (b : Orderbook) (op : ObCreateOp) :
    OrderbookWriterResult × Orderbook :=
  match op.side with
  | .Ask =>
    let asks := b.asks
    let index := asks.findIdx (fun offer => decide (op.price < offer.price))
    (Except.ok (), { b with asks := asks.insertIdx index op.toOffer,
                            timestamp := op.timestamp })
  | .Bid =>
    let bids := b.bids
    let index := bids.findIdx (fun offer => decide (offer.price < op.price))
    (Except.ok (), { b with bids := bids.insertIdx index op.toOffer,
                            timestamp := op.timestamp })

/-- Replace one side of a book. -/
def Orderbook.setSide (b : Orderbook) (s : Side) (l : List Offer) : Orderbook :=
  match s with
  | .Ask => { b with asks := l }
  | .Bid => { b with bids := l }

/-- Read one side of a book. -/
def Orderbook.getSide (b : Orderbook) (s : Side) : List Offer :=
  match s with
  | .Ask => b.asks
  | .Bid => b.bids

/-- `OrderbookWriter::apply_delete`: removes the first offer with the given id
on the given side and sets the timestamp; fails with `OfferNotFound` (leaving
the book untouched) when absent. -/
def apply_delete (b : Orderbook) (op : ObDeleteOp) :
    OrderbookWriterResult × Orderbook :=
  let book := b.getSide op.side
  match book.findIdx? (fun offer => decide (offer.id = op.id)) with
  | some index =>
    (Except.ok (), { b.setSide op.side (book.eraseIdx index) with
                      timestamp := op.timestamp })
  | none => (Except.error (.OfferNotFound op.id), b)

/-- `OrderbookWriter::apply_update`: removes the first offer with the given id
on the given side, patches the provided fields, and re-applies it as a create
(which re-inserts it in sorted position); fails with `OfferNotFound` when
absent. -/
def apply_update (b : Orderbook) (op : ObUpdateOp) :
    OrderbookWriterResult × Orderbook :=
  let book := b.getSide op.side
  match book.findIdx? (fun offer => decide (offer.id = op.id)) with
  | some index =>
    let offer := book.getD index ⟨"", 0, 0⟩
    let offer := { offer with price := op.price.getD offer.price }
    let offer := { offer with amount := op.amount.getD offer.amount }
    let b₁ := b.setSide op.side (book.eraseIdx index)
    let create_op : ObCreateOp :=
      ⟨op.timestamp, op.side, op.id, offer.price, offer.amount⟩
    match apply_create b₁ create_op with
    | (Except.ok _, b₂) => (Except.ok (), { b₂ with timestamp := op.timestamp })
    | (Except.error e, b₂) => (Except.error e, b₂)
  | none => (Except.error (.OfferNotFound op.id), b)

/-- `OrderbookWriter::apply`. -/
def orderbook_apply (b : Orderbook) : OrderbookWriteOp →
    OrderbookWriterResult × Orderbook
  | .Snapshot orderbook => apply_snapshot b orderbook
  | .Create op => apply_create b op
  | .Update op => apply_update b op
  | .Delete op => apply_delete b op

/-- Fold a sequence of write ops over a book (failed ops leave it unchanged,
exactly as in the source, where the session logs and drops the error). -/
def orderbook_apply_ops (b : Orderbook) : List OrderbookWriteOp → Orderbook
  | [] => b
  | op :: ops => orderbook_apply_ops (orderbook_apply b op).2 ops

/-! ## Open-orders writer (`src/implements/writers/open_orders_writer.rs`) -/

/-- `OpenOrdersWriterError`. -/
inductive OpenOrdersWriterError where
  | AlreadyExists : OrderId → OpenOrdersWriterError
  | OrderNotFound : OrderId → OpenOrdersWriterError
  | InsufficientAmount : OpenOrdersWriterError
deriving DecidableEq, Repr

/-- `OpenOrdersWriterResult<()>`. -/
abbrev OpenOrdersWriterResult := Except OpenOrdersWriterError Unit

/-- `CreateOp` of the open-orders writer. -/
structure OoCreateOp where
  timestamp : Nat
  order : OrderState
deriving DecidableEq, Repr

/-- `UpdateOp` of the open-orders writer. -/
structure OoUpdateOp where
  timestamp : Nat
  id : OrderId
  side : Option Side
  price : Option Price
  amount : Option Amount
deriving DecidableEq, Repr

/-- `DeleteOp` of the open-orders writer. -/
structure OoDeleteOp where
  timestamp : Nat
  id : OrderId
deriving DecidableEq, Repr

/-- `ExecutionOp` of the open-orders writer. -/
structure OoExecutionOp where
  timestamp : Nat
  id : OrderId
  amount : Amount
deriving DecidableEq, Repr

/-- `OpenOrdersWriter::apply_snapshot`. -/
def oo_apply_snapshot (_s : OpenOrders) (orders : OpenOrders) :
    OpenOrdersWriterResult × OpenOrders :=
  (Except.ok (), orders)

/-- `OpenOrdersWriter::apply_create`: fails with `AlreadyExists` when an order
with the same id is present; otherwise sets the timestamp and appends. -/
def oo_apply_create (s : OpenOrders) (op : OoCreateOp) :
    OpenOrdersWriterResult × OpenOrders :=
  if s.orders.any (fun o => decide (o.id = op.order.id)) then
    (Except.error (.AlreadyExists op.order.id), s)
  else
    (Except.ok (), { timestamp := op.timestamp, orders := s.orders ++ [op.order] })

/-- `OpenOrdersWriter::apply_update`: patches the provided fields of the first
order with the given id and sets the timestamp; fails with `OrderNotFound`
when absent. -/
def oo_apply_update (s : OpenOrders) (op : OoUpdateOp) :
    OpenOrdersWriterResult × OpenOrders :=
  match s.orders.findIdx? (fun o => decide (o.id = op.id)) with
  | some index =>
    let patch : OrderState → OrderState := fun o =>
      { o with side := op.side.getD o.side,
               price := op.price.getD o.price,
               amount := op.amount.getD o.amount }
    (Except.ok (), { timestamp := op.timestamp,
                     orders := s.orders.modify patch index })
  | none => (Except.error (.OrderNotFound op.id), s)

/-- `OpenOrdersWriter::apply_delete`: removes the first order with the given id
and sets the timestamp; fails with `OrderNotFound` when absent. -/
def oo_apply_delete (s : OpenOrders) (op : OoDeleteOp) :
    OpenOrdersWriterResult × OpenOrders :=
  match s.orders.findIdx? (fun o => decide (o.id = op.id)) with
  | some index =>
    (Except.ok (), { timestamp := op.timestamp,
                     orders := s.orders.eraseIdx index })
  | none => (Except.error (.OrderNotFound op.id), s)

/-- `OpenOrdersWriter::apply_execution`: subtracts the executed amount from the
first order with the given id, sets the timestamp, and removes the order when
its remaining amount reaches exactly zero; fails with `OrderNotFound` when
absent and with `InsufficientAmount` (leaving the container untouched) when
the executed amount exceeds the remaining amount. -/
def oo_apply_execution (s : OpenOrders) (op : OoExecutionOp) :
    OpenOrdersWriterResult × OpenOrders :=
  match s.orders.findIdx? (fun o => decide (o.id = op.id)) with
  | some index =>
    let order := s.orders.getD index ⟨"", .Ask, 0, 0⟩
    if order.amount < op.amount then
      (Except.error .InsufficientAmount, s)
    else
      let order := { order with amount := order.amount - op.amount }
      let orders := s.orders.set index order
      if order.amount = 0 then
        (Except.ok (), { timestamp := op.timestamp, orders := orders.eraseIdx index })
      else
        (Except.ok (), { timestamp := op.timestamp, orders := orders })
  | none => (Except.error (.OrderNotFound op.id), s)

/-! ## Observation (`src/observation.rs`, policy-facing view of `src/interfaces/strategy.rs`) -/

/-- `TradeId` from `src/types/execution.rs`. -/
abbrev TradeId := String

/-- `Execution` from `src/types/execution.rs`: a public trade print. -/
structure Execution where
  timestamp : Nat
  id : TradeId
  maker_side : Side
  price : Price
  amount : Amount
deriving DecidableEq, Repr

/-- `Observation` from `src/observation.rs` (the decision loop's materialized
snapshot; `pending_orders` is the `Vec<Order>` view taken from the order
service). -/
structure Observation where
  info : MarketInfo
  executions : List Execution
  orderbook : Orderbook
  inventory : Inventory
  open_orders : OpenOrders
  pending_orders : List Order
deriving DecidableEq, Repr

/-! ## Depth-based offering policy (`src/strategies/dbo.rs`) -/

/-- `DepthBasedOffering`. -/
structure DepthBasedOffering where
  max_exposure : Amount
  target_depth : Amount
deriving DecidableEq, Repr

/-- One insertion step of `RemainingOrders::new`: add the order's amount to
the per-price entry, creating it when absent (`HashMap<Price, Amount>`
embedded as `Price → Option Amount`). -/
def remainingInsert (amounts : Price → Option Amount) (order : OrderState) :
    Price → Option Amount := fun p =>
  if p = order.price then
    match amounts order.price with
    | some amount => some (amount + order.amount)
    | none => some order.amount
  else amounts p

/-- `RemainingOrders::new`: per-price counters seeded from the sums of
own-order amounts at each price. -/
def RemainingOrders.new (open_orders : OpenOrders) : Price → Option Amount :=
  open_orders.orders.foldl remainingInsert (fun _ => none)

/-- `RemainingOrders::extract`: returns the amount of the offer attributed to
own orders at that price, draining the per-price counter accordingly. -/
def RemainingOrders.extract (amounts : Price → Option Amount) (offer : Offer) :
    Amount × (Price → Option Amount) :=
  match amounts offer.price with
  | some amount =>
    if amount < offer.amount then
      (amount, fun p => if p = offer.price then some 0 else amounts p)
    else
      (offer.amount,
       fun p => if p = offer.price then some (amount - offer.amount) else amounts p)
  | none => (0, amounts)

/-- The loop of `find_price_at_depth`, threading the counters and the
cumulative sum. -/
def findPriceAtDepthGo (depth : Amount) :
    (Price → Option Amount) → Amount → List Offer → Option Price
  | _, _, [] => none
  | amounts, sum, offer :: rest =>
    let extracted := RemainingOrders.extract amounts offer
    let amount := offer.amount - extracted.1
    let sum := sum + amount
    if depth ≤ sum then some offer.price
    else findPriceAtDepthGo depth extracted.2 sum rest

/-- `find_price_at_depth`: the price of the first offer at which the
cumulative own-order-reduced size reaches `depth`. -/
def find_price_at_depth (book : List Offer) (depth : Amount)
    (open_orders : OpenOrders) : Option Price :=
  findPriceAtDepthGo depth (RemainingOrders.new open_orders) 0 book

/-- The `new_ask_price` computed by `DepthBasedOffering::evaluate`. -/
def new_ask_price (target_depth : Amount) (info : MarketInfo)
    (orderbook : Orderbook) (open_orders : OpenOrders) : Price :=
  ((find_price_at_depth orderbook.asks target_depth open_orders).map
    (fun price => price - info.tick_size)).getD info.max_order_price

/-- The `new_bid_price` computed by `DepthBasedOffering::evaluate`. -/
def new_bid_price (target_depth : Amount) (info : MarketInfo)
    (orderbook : Orderbook) (open_orders : OpenOrders) : Price :=
  ((find_price_at_depth orderbook.bids target_depth open_orders).map
    (fun price => price + info.tick_size)).getD info.min_order_price

/-- The reconciliation loop of `evaluate` on one side: keep an own order when
its price equals the target price and its amount still fits the remaining
target size (crediting it), otherwise emit a cancel for it. Returns the
emitted cancels (appended to `orders`) and the remaining target size. -/
def reconcile (target_price : Price) :
    List Order × Amount → List OrderState → List Order × Amount
  | acc, [] => acc
  | (orders, remaining), order :: rest =>
    if order.price = target_price ∧ order.amount ≤ remaining then
      reconcile target_price (orders, remaining - order.amount) rest
    else
      reconcile target_price (orders ++ [Order.Cancel order.to_cancel_order], remaining) rest

/-- `DepthBasedOffering::evaluate` (`impl Policy for DepthBasedOffering`). -/
def DepthBasedOffering.evaluate (self : DepthBasedOffering)
    (observation : Observation) : List Order :=
  if observation.pending_orders ≠ [] then []
  else
    let info := observation.info
    let orderbook := observation.orderbook
    let inventory := observation.inventory
    let nap := new_ask_price self.target_depth info orderbook observation.open_orders
    let nbp := new_bid_price self.target_depth info orderbook observation.open_orders
    let position := inventory.position
    let new_ask_size := self.max_exposure + position
    let new_bid_size := self.max_exposure - position
    let askRes := reconcile nap ([], new_ask_size) observation.open_orders.asks
    let orders :=
      if info.min_order_size ≤ askRes.2 then
        askRes.1 ++ [Order.create .Limit .Ask nap askRes.2]
      else askRes.1
    let bidRes := reconcile nbp (orders, new_bid_size) observation.open_orders.bids
    if info.min_order_size ≤ bidRes.2 then
      bidRes.1 ++ [Order.create .Limit .Bid nbp bidRes.2]
    else bidRes.1

/-! ## Pub/sub bus (`src/pubsub.rs`)

The topic state (`PubSubInner`) holds the registered sender ends keyed by
subscription id; every subscription ever created keeps its disconnect flag
and its unbounded queue (the receiver end survives `unsubscribe`, so flags
and queues are total maps here). Consumers are assumed to keep their
receivers alive, so the send-failure collection path of `publish` never
fires and is not modelled. -/

/-- `SubscriptionId`. -/
abbrev SubscriptionId := Nat

/-- `PubSubError`. -/
inductive PubSubError where
  | PublishError : List SubscriptionId → PubSubError
  | Disconnected : SubscriptionId → PubSubError
  | SubscriptionError : SubscriptionId → PubSubError
deriving DecidableEq, Repr

/-- State of one pub/sub topic. -/
structure PubSubState (T : Type) where
  nonce : Nat
  subscribers : List SubscriptionId
  exitFlags : SubscriptionId → Bool
  queues : SubscriptionId → List T

/-- The empty topic (`PubSubInner::default`). -/
def PubSubState.empty (T : Type) : PubSubState T :=
  ⟨0, [], fun _ => false, fun _ => []⟩

/-- `PubSubInner::subscribe`: allocate a fresh id with an empty queue and a
cleared disconnect flag, register it, bump the nonce. -/
def PubSubState.subscribe (s : PubSubState T) : PubSubState T × SubscriptionId :=
  (⟨s.nonce + 1,
    s.subscribers ++ [s.nonce],
    fun i => if i = s.nonce then false else s.exitFlags i,
    fun i => if i = s.nonce then [] else s.queues i⟩,
   s.nonce)

/-- `PubSubInner::unsubscribe`: set the disconnect flag when the id is
registered, and remove it from the subscriber map. -/
def PubSubState.unsubscribe (s : PubSubState T) (id : SubscriptionId) :
    PubSubState T :=
  ⟨s.nonce,
   s.subscribers.filter (fun i => decide (i ≠ id)),
   fun i => if i = id ∧ s.subscribers.contains id then true else s.exitFlags i,
   s.queues⟩

/-- `PubSubInner::publish`: deliver the message to the queue of every
currently registered subscriber. -/
def PubSubState.publish (s : PubSubState T) (msg : T) : PubSubState T :=
  { s with queues := fun i =>
      if s.subscribers.contains i then s.queues i ++ [msg] else s.queues i }

/-- `Subscription::disconnected`. -/
def PubSubState.disconnected (s : PubSubState T) (id : SubscriptionId) : Bool :=
  s.exitFlags id

/-- `Subscription::try_iter` (also the shape of `recv` / `iter`): checks the
connection first, then exposes the queued messages. -/
def PubSubState.try_iter (s : PubSubState T) (id : SubscriptionId) :
    Except PubSubError (List T) :=
  if s.disconnected id then Except.error (.Disconnected id)
  else Except.ok (s.queues id)

/-- An external event on a topic: a publish or an unsubscribe. -/
inductive PubSubEvent (T : Type) where
  | publish : T → PubSubEvent T
  | unsubscribe : SubscriptionId → PubSubEvent T

/-- Run a sequence of events against a topic. -/
def PubSubState.run (s : PubSubState T) : List (PubSubEvent T) → PubSubState T
  | [] => s
  | .publish msg :: tr => (s.publish msg).run tr
  | .unsubscribe id :: tr => (s.unsubscribe id).run tr

/-- The messages published by a trace, in order. -/
def publishedMsgs : List (PubSubEvent T) → List T
  | [] => []
  | .publish msg :: tr => msg :: publishedMsgs tr
  | .unsubscribe _ :: tr => publishedMsgs tr

/-- A topic with `n` subscribers (ids `0..n-1`), no messages yet. -/
def mkTopic (T : Type) : Nat → PubSubState T
  | 0 => PubSubState.empty T
  | n + 1 => (mkTopic T n).subscribe.1

/-! ## Order service (`src/components/order_service.rs`)

`submit` assigns the fresh id and spawns the submission task; the push of
the `PendingOrder` onto the pending list, the await of the broker reply and
the removal by id all happen inside that task. The task is modelled as a
small state machine with an explicit phase, and the scheduler as explicit
step functions; the GC timer tick is a separate step. -/

/-- `PendingId`, a monotonic 64-bit counter. -/
abbrev PendingId := Nat

/-- `PendingOrder`. -/
structure PendingOrder where
  timestamp : Nat
  id : PendingId
  order : Order
deriving DecidableEq, Repr

/-- Progress of one spawned submission task: before its push of the pending
entry, between the push and the broker reply, or finished. -/
inductive TaskPhase where
  | notStarted : TaskPhase
  | pushed : TaskPhase
  | done : TaskPhase
deriving DecidableEq, Repr

/-- One spawned submission task. -/
structure SubmitTask where
  pending : PendingOrder
  phase : TaskPhase
deriving DecidableEq, Repr

/-- `OrderService` state: the nonce, the pending list behind the RwLock, and
the spawned submission tasks. -/
structure OrderServiceState where
  nonce : Nat
  pendings : List PendingOrder
  tasks : List SubmitTask
deriving DecidableEq, Repr

/-- The state right after `OrderService::start`. -/
def OrderServiceState.init : OrderServiceState := ⟨0, [], []⟩

/-- `OrderService::submit`: assign the fresh `PendingId`, stamp `now`, bump
the nonce, and spawn the submission task. The pending list itself is not
touched here — the push happens inside the spawned task. -/
def OrderServiceState.submit (s : OrderServiceState) (now : Nat) (order : Order) :
    OrderServiceState :=
  ⟨s.nonce + 1, s.pendings, s.tasks ++ [⟨⟨now, s.nonce, order⟩, .notStarted⟩]⟩

/-- `OrderService::get_pending_orders`: a snapshot of the pending list. -/
def OrderServiceState.get_pending_orders (s : OrderServiceState) :
    List PendingOrder :=
  s.pendings

/-- Scheduler step: task `i` runs up to its broker call, pushing its pending
entry onto the list. -/
def OrderServiceState.taskPush (s : OrderServiceState) (i : Nat) :
    OrderServiceState :=
  match s.tasks.get? i with
  | some t =>
    if t.phase = .notStarted then
      ⟨s.nonce, s.pendings ++ [t.pending], s.tasks.set i { t with phase := .pushed }⟩
    else s
  | none => s

/-- Scheduler step: task `i` receives its broker reply (Accept or Reject) and
removes its pending entry by id (`retain(|po| po.id() != id)`). -/
def OrderServiceState.taskReply (s : OrderServiceState) (i : Nat) :
    OrderServiceState :=
  match s.tasks.get? i with
  | some t =>
    if t.phase = .pushed then
      ⟨s.nonce, s.pendings.filter (fun po => decide (po.id ≠ t.pending.id)),
       s.tasks.set i { t with phase := .done }⟩
    else s
  | none => s

/-- The GC timer tick at wall-clock `now`:
`retain(|po| po.timestamp() + EXPIRES_MS > now)` with `EXPIRES_MS = 20_000`. -/
def OrderServiceState.gc (s : OrderServiceState) (now : Nat) : OrderServiceState :=
  ⟨s.nonce, s.pendings.filter (fun po => decide (now < po.timestamp + 20000)), s.tasks⟩

/-! ## Theorems -/

/-- The `MarketInfo` of the policy scenarios (`dummy_info` in `dbo.rs`):
tick 0.5, min order size 100, price bounds [1, 1000000]. -/
def scenarioInfo : MarketInfo :=
  ⟨10000000, 100, 100, 1000000, 1, (0.5 : Rat)⟩

/-- The public book of the policy scenarios: asks `[@16000:1000, @17000:1000]`,
bids `[@14000:1000, @13000:1000]`. -/
def scenarioBook : Orderbook :=
  ⟨0, [⟨"160000", 16000, 1000⟩, ⟨"170000", 17000, 1000⟩],
      [⟨"140000", 14000, 1000⟩, ⟨"130000", 13000, 1000⟩]⟩

/-- Scenario-3 observation with own oversize orders Ask@15999.5:600 and
Bid@14000.5:600, flat position, no pending orders. -/
def scenario3Obs : Observation :=
  ⟨scenarioInfo, [], scenarioBook, .Position 0,
   ⟨0, [⟨"159995", .Ask, (15999.5 : Rat), 600⟩, ⟨"140005", .Bid, (14000.5 : Rat), 600⟩]⟩,
   []⟩

/-- The timestamp carried by an order-book write op (for a snapshot, the
timestamp of the installed book). -/
def OrderbookWriteOp.opTimestamp : OrderbookWriteOp → Nat
  | .Snapshot ob => ob.timestamp
  | .Create op => op.timestamp
  | .Update op => op.timestamp
  | .Delete op => op.timestamp

/-- The book reached by one successful create at timestamp 5 on an empty,
well-formed book. -/
def tsCexBook : Orderbook := (apply_create ⟨0, [], []⟩ ⟨5, .Ask, "A", 10, 1⟩).2

/-- True on every event except an unsubscribe of the given id. -/
def notUnsubFor (id : SubscriptionId) : PubSubEvent T → Bool
  | .unsubscribe j => decide (j ≠ id)
  | .publish _ => true

/-! ### Claim C4: the spec's wording of the depth walk, as its own definitions -/

/-- Modelled from the spec's words: the per-price attribution counter is
seeded from "the sum of own open-order amounts at that price". -/
def specOwnAt (oo : OpenOrders) (p : Price) : Amount :=
  ((oo.orders.filter (fun o => decide (o.price = p))).map OrderState.amount).sum

/-- Modelled from the spec's words: walk the book from the best price,
adding for each offer its amount reduced by the counter at its price (never
below zero), draining the counter by the offer's amount (never below zero);
the first offer at which the cumulative sum reaches the target depth gives
the price. -/
def specWalk (depth : Amount) : (Price → Amount) → Amount → List Offer → Option Price
  | _, _, [] => none
  | c, sum, offer :: rest =>
    let contrib := max (offer.amount - c offer.price) 0
    if depth ≤ sum + contrib then some offer.price
    else
      specWalk depth
        (fun p => if p = offer.price then max (c offer.price - offer.amount) 0 else c p)
        (sum + contrib) rest

/-- The spec-side price-at-depth: the walk started from the seeded counters
and a zero cumulative sum. -/
def specPriceAtDepth (book : List Offer) (depth : Amount) (oo : OpenOrders) :
    Option Price :=
  specWalk depth (specOwnAt oo) 0 book

/-- The option-valued counter map of the code agrees pointwise (with absent
keys read as zero) with a total counter function. -/
def CounterRel (m : Price → Option Amount) (c : Price → Amount) : Prop :=
  ∀ p, (m p).getD 0 = c p

/-! ### Claim C1: order-book writer invariants -/

/-- Ask-side sort order: prices non-decreasing from the front. -/
def askSorted (l : List Offer) : Prop :=
  l.Pairwise (fun a b => a.price ≤ b.price)

/-- Bid-side sort order: prices non-increasing from the front. -/
def bidSorted (l : List Offer) : Prop :=
  l.Pairwise (fun a b => b.price ≤ a.price)

/-- The offer ids of one side. -/
def offerIds (l : List Offer) : List OfferId :=
  l.map Offer.id

/-- A well-formed book: each side sorted its way, ids unique per side. -/
def Orderbook.WellFormed (b : Orderbook) : Prop :=
  askSorted b.asks ∧ bidSorted b.bids ∧ (offerIds b.asks).Nodup ∧ (offerIds b.bids).Nodup

/-- Legality of one op against the current book: a snapshot installs a
well-formed book, a create brings an id fresh to its side; updates and
deletes are always legal (they fail harmlessly when the id is absent). -/
def obLegal1 (b : Orderbook) : OrderbookWriteOp → Prop
  | .Snapshot ob => ob.WellFormed
  | .Create op => ∀ o ∈ b.getSide op.side, o.id ≠ op.id
  | .Update _ => True
  | .Delete _ => True

/-- Legality of an op sequence, each op judged against the book it meets. -/
def ObLegal (b : Orderbook) : List OrderbookWriteOp → Prop
  | [] => True
  | op :: ops => obLegal1 b op ∧ ObLegal (orderbook_apply b op).2 ops

/-- The timestamps of the ops of a sequence that apply successfully, in
order. -/
def appliedTs (b : Orderbook) : List OrderbookWriteOp → List Nat
  | [] => []
  | op :: ops =>
    match orderbook_apply b op with
    | (Except.ok _, b') => op.opTimestamp :: appliedTs b' ops
    | (Except.error _, b') => appliedTs b' ops

/-- The spec's scenario-1 op sequence: three fresh ask creates out of price
order. -/
def scenario1Ops : List OrderbookWriteOp :=
  [.Create ⟨1, .Ask, "270", 27000, 10⟩,
   .Create ⟨2, .Ask, "255", 25500, 10⟩,
   .Create ⟨3, .Ask, "260", 26000, 10⟩]

instance (b : Orderbook) : Decidable b.WellFormed := by
  unfold Orderbook.WellFormed askSorted bidSorted offerIds
  infer_instance

instance (b : Orderbook) (op : OrderbookWriteOp) : Decidable (obLegal1 b op) := by
  cases op <;> (unfold obLegal1; infer_instance)

/-- Claim C3: in the scenario-3 market with own open orders exactly
Ask@15999.5:600 and Bid@14000.5:600, the depth-based policy with
max_exposure 500 and target_depth 1000 returns exactly
`[Cancel(ask-id), New(Limit, Ask, 15999.5, 500), Cancel(bid-id),
New(Limit, Bid, 14000.5, 500)]`, in that order. -/
theorem dbo_oversize_cancel_scenario :
    DepthBasedOffering.evaluate ⟨500, 1000⟩ scenario3Obs =
      [Order.cancel "159995", Order.create .Limit .Ask (15999.5 : Rat) 500,
       Order.cancel "140005", Order.create .Limit .Bid (14000.5 : Rat) 500] := by
  norm_num [DepthBasedOffering.evaluate, scenario3Obs, scenarioInfo, scenarioBook,
    new_ask_price, new_bid_price, find_price_at_depth, findPriceAtDepthGo,
    RemainingOrders.new, RemainingOrders.extract, remainingInsert,
    OpenOrders.asks, OpenOrders.bids, Side.isAsk, Side.isBid, reconcile,
    Inventory.position, Order.create, Order.cancel, OrderState.to_cancel_order]

lemma apply_create_fst (b : Orderbook) (op : ObCreateOp) :
    (apply_create b op).1 = Except.ok () := by
  obtain ⟨ts, side, id, price, amount⟩ := op
  cases side <;> rfl

lemma apply_create_eta (b : Orderbook) (op : ObCreateOp) :
    apply_create b op = (Except.ok (), (apply_create b op).2) := by
  obtain ⟨ts, side, id, price, amount⟩ := op
  cases side <;> rfl

/-- Claim C10: `apply_create` always returns `Ok` (the order-book writer's
`AlreadyExists` error is never produced by any op), so creating an offer
whose `OfferId` already exists on that side silently inserts a second offer
with the same id at its price-sorted position, after existing offers of
equal price. -/
theorem orderbook_create_never_already_exists :
    (∀ b op, (apply_create b op).1 = Except.ok ()) ∧
    (∀ b op, (orderbook_apply b op).1 = Except.ok () ∨
      ∃ id, (orderbook_apply b op).1 =
        Except.error (UpdateOrderbookError.OfferNotFound id)) ∧
    apply_create ⟨0, [⟨"A", 10, 1⟩], []⟩ ⟨5, .Ask, "A", 10, 2⟩ =
      (Except.ok (), ⟨5, [⟨"A", 10, 1⟩, ⟨"A", 10, 2⟩], []⟩) := by
  refine ⟨apply_create_fst, ?_, by norm_num [apply_create, List.findIdx,
    List.findIdx.go, ObCreateOp.toOffer, List.insertIdx]⟩
  intro b op
  cases op with
  | Snapshot ob => exact Or.inl rfl
  | Create op => exact Or.inl (apply_create_fst b op)
  | Update op =>
    cases h : (b.getSide op.side).findIdx? (fun offer => decide (offer.id = op.id)) with
    | none =>
      refine Or.inr ⟨op.id, ?_⟩
      simp only [orderbook_apply, apply_update, h]
    | some index =>
      refine Or.inl ?_
      simp only [orderbook_apply, apply_update, h]
      rw [apply_create_eta]
  | Delete op =>
    cases h : (b.getSide op.side).findIdx? (fun offer => decide (offer.id = op.id)) with
    | none =>
      refine Or.inr ⟨op.id, ?_⟩
      simp only [orderbook_apply, apply_delete, h]
    | some index =>
      refine Or.inl ?_
      simp only [orderbook_apply, apply_delete, h]

/-- Counterexample to claim C6 as stated: a successful create whose op
timestamp (3) is smaller than the book's current timestamp (5) succeeds and
leaves the book timestamp strictly smaller than before the write. -/
theorem orderbook_ts_monotone_cex :
    (apply_create tsCexBook ⟨3, .Ask, "B", 11, 1⟩).1 = Except.ok () ∧
    tsCexBook.timestamp = 5 ∧
    (apply_create tsCexBook ⟨3, .Ask, "B", 11, 1⟩).2.timestamp < tsCexBook.timestamp := by
  refine ⟨apply_create_fst _ _, rfl, ?_⟩
  norm_num [tsCexBook, apply_create]

/-- Claim C6, amended: every successful order-book write sets the book's
timestamp to the op's own timestamp (for a snapshot, the installed book's
timestamp); consequently the timestamp is non-decreasing across a successful
write exactly when the op's timestamp is at least the current one. -/
lemma orderbook_apply_ok_timestamp (b : Orderbook) (op : OrderbookWriteOp)
    (h : (orderbook_apply b op).1 = Except.ok ()) :
    (orderbook_apply b op).2.timestamp = op.opTimestamp := by
  cases op with
  | Snapshot ob => rfl
  | Create op =>
    obtain ⟨ts, side, id, price, amount⟩ := op
    cases side <;> rfl
  | Update op =>
    cases hf : (b.getSide op.side).findIdx? (fun offer => decide (offer.id = op.id)) with
    | none => simp [orderbook_apply, apply_update, hf] at h
    | some index =>
      simp only [orderbook_apply, apply_update, hf]
      rw [apply_create_eta]
      rfl
  | Delete op =>
    cases hf : (b.getSide op.side).findIdx? (fun offer => decide (offer.id = op.id)) with
    | none => simp [orderbook_apply, apply_delete, hf] at h
    | some index =>
      simp only [orderbook_apply, apply_delete, hf]
      rfl

lemma orderbook_apply_error_snd (b : Orderbook) (op : OrderbookWriteOp)
    (e : UpdateOrderbookError) (h : (orderbook_apply b op).1 = Except.error e) :
    (orderbook_apply b op).2 = b := by
  cases op with
  | Snapshot ob => exact absurd h (by simp [orderbook_apply, apply_snapshot])
  | Create op =>
    have hok : (orderbook_apply b (OrderbookWriteOp.Create op)).1 = Except.ok () :=
      apply_create_fst b op
    rw [hok] at h
    exact absurd h (by simp)
  | Update op =>
    cases hf : (b.getSide op.side).findIdx? (fun offer => decide (offer.id = op.id)) with
    | none => simp [orderbook_apply, apply_update, hf]
    | some index =>
      simp only [orderbook_apply, apply_update, hf] at h
      rw [apply_create_eta] at h
      exact absurd h (by simp)
  | Delete op =>
    cases hf : (b.getSide op.side).findIdx? (fun offer => decide (offer.id = op.id)) with
    | none => simp [orderbook_apply, apply_delete, hf]
    | some index => simp [orderbook_apply, apply_delete, hf] at h

theorem orderbook_ts_follows_op (b : Orderbook) (op : OrderbookWriteOp)
    (h : (orderbook_apply b op).1 = Except.ok ()) :
    (orderbook_apply b op).2.timestamp = op.opTimestamp ∧
    (b.timestamp ≤ op.opTimestamp →
      b.timestamp ≤ (orderbook_apply b op).2.timestamp) := by
  have main := orderbook_apply_ok_timestamp b op h
  exact ⟨main, fun hle => main ▸ hle⟩

/-- Witness for `orderbook_ts_follows_op` at a concrete successful delete. -/
theorem orderbook_ts_follows_op_witness :
    (orderbook_apply ⟨2, [⟨"A", 10, 1⟩], []⟩ (.Delete ⟨7, .Ask, "A"⟩)).2.timestamp = 7 ∧
    2 ≤ (orderbook_apply ⟨2, [⟨"A", 10, 1⟩], []⟩ (.Delete ⟨7, .Ask, "A"⟩)).2.timestamp :=
  ⟨(orderbook_ts_follows_op ⟨2, [⟨"A", 10, 1⟩], []⟩ (.Delete ⟨7, .Ask, "A"⟩)
      (by with_unfolding_all rfl)).1,
   (orderbook_ts_follows_op ⟨2, [⟨"A", 10, 1⟩], []⟩ (.Delete ⟨7, .Ask, "A"⟩)
      (by with_unfolding_all rfl)).2 (by decide)⟩

/-- Counterexample to claim C7 as stated: after `unsubscribe`, draining via
`try_iter` (and likewise `recv` / `iter`, which perform the same connection
check first) returns `Disconnected` even though the message published before
the unsubscribe is still sitting in the queue. -/
theorem pubsub_unsubscribe_drain_cex :
    ((((PubSubState.empty Nat).subscribe.1.publish 1).unsubscribe 0).try_iter 0
        = Except.error (PubSubError.Disconnected 0)) ∧
    (((PubSubState.empty Nat).subscribe.1.publish 1).unsubscribe 0).queues 0 = [1] := by
  constructor <;> rfl

/-- Claim C7, amended: `unsubscribe(id)` on a registered subscription sets its
disconnected flag and removes its sender from the subscriber map; the queue
contents are left untouched (the prior messages remain reachable through the
raw receiver), but `recv` / `iter` / `try_iter` henceforth return
`Disconnected(id)` instead of yielding them. -/
theorem pubsub_unsubscribe_spec (T : Type) (s : PubSubState T) (id : SubscriptionId)
    (h : id ∈ s.subscribers) :
    (s.unsubscribe id).exitFlags id = true ∧
    id ∉ (s.unsubscribe id).subscribers ∧
    (s.unsubscribe id).queues = s.queues ∧
    (s.unsubscribe id).try_iter id = Except.error (.Disconnected id) := by
  have hc : s.subscribers.contains id = true := by
    simpa using h
  have hflag : (s.unsubscribe id).exitFlags id = true := by
    show (if id = id ∧ s.subscribers.contains id then true else s.exitFlags id) = true
    simp [hc]
    exact Or.inl h
  refine ⟨hflag, ?_, rfl, ?_⟩
  · intro hmem
    have := (List.mem_filter.mp hmem).2
    simp at this
  · simp [PubSubState.try_iter, PubSubState.disconnected, hflag]

/-- Witness for `pubsub_unsubscribe_spec` on a one-subscriber topic holding
one prior message. -/
theorem pubsub_unsubscribe_spec_witness :
    (((PubSubState.empty Nat).subscribe.1.publish 7).unsubscribe 0).try_iter 0
      = Except.error (.Disconnected 0) :=
  (pubsub_unsubscribe_spec Nat ((PubSubState.empty Nat).subscribe.1.publish 7) 0
    (by decide)).2.2.2

/-- Counterexample to claim C2 as stated: `submit` only spawns the submission
task — the push of the `PendingOrder` happens inside that task — so in the
execution where the caller queries before the spawned task runs,
`get_pending_orders()` right after `submit` returns is still empty and in
particular contains no entry with the freshly assigned id. -/
theorem order_service_submit_pending_cex :
    (OrderServiceState.init.submit 100 (Order.cancel "X")).get_pending_orders = [] :=
  rfl

lemma filter_id_eq_nil {l : List PendingOrder} {n : Nat}
    (h : ∀ po ∈ l, po.id < n) :
    l.filter (fun po => decide (po.id = n)) = [] := by
  rw [List.filter_eq_nil]
  intro po hpo
  simp only [decide_eq_true_eq]
  exact Nat.ne_of_lt (h po hpo)

lemma taskPush_filter_preserved (S : OrderServiceState) (j n : Nat) (po : PendingOrder)
    (hfilt : S.pendings.filter (fun p => decide (p.id = n)) = [po])
    (hne : ∀ t, S.tasks.get? j = some t → t.pending.id ≠ n) :
    (S.taskPush j).pendings.filter (fun p => decide (p.id = n)) = [po] := by
  cases hget : S.tasks.get? j with
  | none => simp only [OrderServiceState.taskPush, hget]; exact hfilt
  | some t =>
    simp only [OrderServiceState.taskPush, hget]
    by_cases hph : t.phase = TaskPhase.notStarted
    · rw [if_pos hph]
      show ((S.pendings ++ [t.pending]).filter _) = _
      rw [List.filter_append, hfilt]
      simp [hne t hget]
    · rw [if_neg hph]
      exact hfilt

lemma taskReply_filter_preserved (S : OrderServiceState) (j n : Nat) (po : PendingOrder)
    (hfilt : S.pendings.filter (fun p => decide (p.id = n)) = [po])
    (hne : ∀ t, S.tasks.get? j = some t → t.pending.id ≠ n) :
    (S.taskReply j).pendings.filter (fun p => decide (p.id = n)) = [po] := by
  cases hget : S.tasks.get? j with
  | none => simp only [OrderServiceState.taskReply, hget]; exact hfilt
  | some t =>
    simp only [OrderServiceState.taskReply, hget]
    by_cases hph : t.phase = TaskPhase.pushed
    · rw [if_pos hph]
      show ((S.pendings.filter (fun p => decide (p.id ≠ t.pending.id))).filter
          (fun p => decide (p.id = n))) = _
      rw [List.filter_filter]
      have hcongr : ∀ p ∈ S.pendings,
          (decide (p.id = n) && decide (p.id ≠ t.pending.id)) = decide (p.id = n) := by
        intro p _
        by_cases hpn : p.id = n
        · simp [hpn, Ne.symm (hne t hget)]
        · simp [hpn]
      rw [List.filter_congr hcongr]
      exact hfilt
    · rw [if_neg hph]
      exact hfilt

lemma gc_filter_preserved (S : OrderServiceState) (tnow n : Nat) (po : PendingOrder)
    (hfilt : S.pendings.filter (fun p => decide (p.id = n)) = [po])
    (hts : tnow < po.timestamp + 20000) :
    (S.gc tnow).pendings.filter (fun p => decide (p.id = n)) = [po] := by
  rw [OrderServiceState.gc]
  show ((S.pendings.filter (fun p => decide (tnow < p.timestamp + 20000))).filter
      (fun p => decide (p.id = n))) = _
  rw [List.filter_comm, hfilt]
  simp [hts]

/-- Claim C2, amended: `submit` assigns the fresh `PendingId` equal to the
current nonce and bumps the nonce, so ids assigned by successive submits
strictly increase; `submit` itself leaves the pending list untouched (the
push happens inside the spawned task), and once that task performs its push,
`get_pending_orders` contains exactly one entry with the fresh id, carrying
the submitted order — and keeps doing so across other tasks' pushes and
broker-reply removals and across GC ticks that run before the entry's
20-second expiry. -/
theorem order_service_pending_spec (s : OrderServiceState) (now : Nat) (order : Order)
    (hp : ∀ po ∈ s.pendings, po.id < s.nonce)
    (ht : ∀ t ∈ s.tasks, t.pending.id < s.nonce) :
    (s.submit now order).nonce = s.nonce + 1 ∧
    (s.submit now order).tasks.map (fun t => t.pending.id)
      = s.tasks.map (fun t => t.pending.id) ++ [s.nonce] ∧
    (∀ now₂ order₂,
      ((s.submit now order).submit now₂ order₂).tasks.map (fun t => t.pending.id)
        = s.tasks.map (fun t => t.pending.id) ++ [s.nonce, s.nonce + 1]) ∧
    (s.submit now order).get_pending_orders = s.get_pending_orders ∧
    ((s.submit now order).taskPush s.tasks.length).get_pending_orders.filter
        (fun po => decide (po.id = s.nonce)) = [⟨now, s.nonce, order⟩] ∧
    (∀ j t, j ≠ s.tasks.length →
      ((s.submit now order).taskPush s.tasks.length).tasks.get? j = some t →
      ((((s.submit now order).taskPush s.tasks.length).taskPush j).get_pending_orders.filter
          (fun po => decide (po.id = s.nonce)) = [⟨now, s.nonce, order⟩] ∧
       (((s.submit now order).taskPush s.tasks.length).taskReply j).get_pending_orders.filter
          (fun po => decide (po.id = s.nonce)) = [⟨now, s.nonce, order⟩])) ∧
    (∀ tnow, tnow < now + 20000 →
      (((s.submit now order).taskPush s.tasks.length).gc tnow).get_pending_orders.filter
        (fun po => decide (po.id = s.nonce)) = [⟨now, s.nonce, order⟩]) := by
  have hmapped : (s.submit now order).tasks.map (fun t => t.pending.id)
      = s.tasks.map (fun t => t.pending.id) ++ [s.nonce] := by
    simp [OrderServiceState.submit]
  have hsp : (s.submit now order).taskPush s.tasks.length =
      ({ nonce := s.nonce + 1,
         pendings := s.pendings ++ [{ timestamp := now, id := s.nonce, order := order }],
         tasks := (s.tasks ++ [({ pending := { timestamp := now, id := s.nonce, order := order },
                                  phase := TaskPhase.notStarted } : SubmitTask)]).set s.tasks.length
           ({ pending := { timestamp := now, id := s.nonce, order := order },
              phase := TaskPhase.pushed } : SubmitTask) } : OrderServiceState) := by
    simp [OrderServiceState.submit, OrderServiceState.taskPush, List.get?_concat_length]
  have hfilter : (s.pendings ++ [(⟨now, s.nonce, order⟩ : PendingOrder)]).filter
      (fun po => decide (po.id = s.nonce)) = [⟨now, s.nonce, order⟩] := by
    rw [List.filter_append, filter_id_eq_nil hp]
    simp
  have htask_other : ∀ j t, j ≠ s.tasks.length →
      ((s.submit now order).taskPush s.tasks.length).tasks.get? j = some t →
      t.pending.id < s.nonce := by
    intro j t hj hget
    rw [hsp] at hget
    rw [List.get?_set_ne _ _ (Ne.symm hj)] at hget
    rcases Nat.lt_or_ge j s.tasks.length with hlt | hge
    · rw [List.get?_append hlt] at hget
      exact ht t (List.get?_mem hget)
    · have hge' : s.tasks.length + 1 ≤ j := by
        rcases Nat.eq_or_lt_of_le hge with heq | hlt'
        · exact absurd heq.symm hj
        · exact hlt'
      rw [List.get?_eq_none.mpr (by simpa using hge')] at hget
      exact absurd hget (by simp)
  have hfilt : ((s.submit now order).taskPush s.tasks.length).pendings.filter
      (fun po => decide (po.id = s.nonce)) = [⟨now, s.nonce, order⟩] := by
    rw [hsp]; exact hfilter
  refine ⟨rfl, hmapped, ?_, rfl, hfilt, ?_, ?_⟩
  · intro now₂ order₂
    simp [OrderServiceState.submit]
  · intro j t hj hget
    have hne : ∀ t', ((s.submit now order).taskPush s.tasks.length).tasks.get? j = some t' →
        t'.pending.id ≠ s.nonce :=
      fun t' hg => Nat.ne_of_lt (htask_other j t' hj hg)
    exact ⟨taskPush_filter_preserved _ j s.nonce _ hfilt hne,
           taskReply_filter_preserved _ j s.nonce _ hfilt hne⟩
  · intro tnow htnow
    exact gc_filter_preserved _ tnow s.nonce _ hfilt htnow

/-- Witness for `order_service_pending_spec`: a fresh service, one submit,
then the task's push; the pending list then holds exactly the submitted
entry. -/
theorem order_service_pending_spec_witness :
    ((OrderServiceState.init.submit 100 (Order.cancel "X")).taskPush 0).get_pending_orders.filter
        (fun po => decide (po.id = 0)) = [⟨100, 0, Order.cancel "X"⟩] ∧
    (((OrderServiceState.init.submit 100 (Order.cancel "X")).taskPush 0).gc
        15000).get_pending_orders.filter
        (fun po => decide (po.id = 0)) = [⟨100, 0, Order.cancel "X"⟩] :=
  ⟨(order_service_pending_spec OrderServiceState.init 100 (Order.cancel "X")
      (by simp [OrderServiceState.init]) (by simp [OrderServiceState.init])).2.2.2.2.1,
   (order_service_pending_spec OrderServiceState.init 100 (Order.cancel "X")
      (by simp [OrderServiceState.init]) (by simp [OrderServiceState.init])).2.2.2.2.2.2
     15000 (by decide)⟩

lemma findIdx?_of_first {α : Type} {p : α → Bool} :
    ∀ (l : List α) (i : Nat) (r : α), l.get? i = some r → p r = true →
      (∀ j, j < i → ∀ o, l.get? j = some o → p o = false) →
      l.findIdx? p = some i := by
  intro l
  induction l with
  | nil => intro i r hget hp hfirst; cases i <;> exact Option.noConfusion hget
  | cons a t ih =>
    intro i r hget hp hfirst
    cases i with
    | zero =>
      simp only [List.get?] at hget
      cases hget
      simp [List.findIdx?_cons, hp]
    | succ j =>
      have ha : p a = false := hfirst 0 (Nat.succ_pos j) a rfl
      simp only [List.get?] at hget
      rw [List.findIdx?_cons, if_neg (by simp [ha]), List.findIdx?_succ]
      rw [ih j r hget hp (fun k hk o hko => hfirst (k + 1) (Nat.succ_lt_succ hk) o hko)]
      rfl

lemma eraseIdx_set_same {α : Type} : ∀ (l : List α) (i : Nat) (x : α),
    (l.set i x).eraseIdx i = l.eraseIdx i := by
  intro l
  induction l with
  | nil => intro i x; rfl
  | cons a t ih =>
    intro i x
    cases i with
    | zero => rfl
    | succ j =>
      show a :: (t.set j x).eraseIdx j = a :: t.eraseIdx j
      rw [ih j x]

/-- Claim C5: `apply_execution` fails with `OrderNotFound` when no order with
the given id is present; when the (first) order with that id has remaining
amount `r` and the filled amount exceeds `r`, it fails with
`InsufficientAmount` leaving the container (orders and timestamp) unchanged;
otherwise it succeeds, the order's remaining amount drops by exactly the
filled amount, the container timestamp becomes the op's timestamp, and the
order is removed exactly when its remaining amount reaches zero. -/
theorem open_orders_execution_spec (s : OpenOrders) (op : OoExecutionOp) :
    ((∀ o ∈ s.orders, o.id ≠ op.id) →
      oo_apply_execution s op = (Except.error (.OrderNotFound op.id), s)) ∧
    (∀ i r, s.orders.get? i = some r → r.id = op.id →
      (∀ j, j < i → ∀ o, s.orders.get? j = some o → o.id ≠ op.id) →
      ((r.amount < op.amount →
          oo_apply_execution s op = (Except.error .InsufficientAmount, s)) ∧
       (op.amount ≤ r.amount →
          oo_apply_execution s op =
            (Except.ok (),
             ⟨op.timestamp,
              if r.amount = op.amount then s.orders.eraseIdx i
              else s.orders.set i { r with amount := r.amount - op.amount }⟩)))) := by
  constructor
  · intro habsent
    have hnone : s.orders.findIdx? (fun o => decide (o.id = op.id)) = none := by
      rw [List.findIdx?_eq_none_iff]
      intro o ho
      simpa using habsent o ho
    simp [oo_apply_execution, hnone]
  · intro i r hget hid hfirst
    have hsome : s.orders.findIdx? (fun o => decide (o.id = op.id)) = some i := by
      refine findIdx?_of_first s.orders i r hget (by simpa using hid) ?_
      intro j hj o ho
      simpa using hfirst j hj o ho
    have hgetD : s.orders.getD i ⟨"", .Ask, 0, 0⟩ = r := by
      rw [List.getD_eq_get?, hget]
      rfl
    constructor
    · intro hlt
      simp only [oo_apply_execution, hsome, hgetD]
      rw [if_pos hlt]
    · intro hle
      have hnlt : ¬ r.amount < op.amount := not_lt.mpr hle
      simp only [oo_apply_execution, hsome, hgetD]
      rw [if_neg hnlt]
      by_cases hz : r.amount = op.amount
      · have hzero : r.amount - op.amount = 0 := by rw [hz, sub_self]
        simp only [hzero]
        rw [if_pos trivial, if_pos hz, eraseIdx_set_same]
      · have hnz : r.amount - op.amount ≠ 0 := sub_ne_zero_of_ne hz
        rw [if_neg hnz, if_neg hz]

/-- Witness for `open_orders_execution_spec`: executing the full remaining
amount 10 of order 260 (the spec's scenario 2) removes it and leaves an empty
container with the op's timestamp; and an execution on an absent id fails
with `OrderNotFound`. -/
theorem open_orders_execution_spec_witness :
    oo_apply_execution ⟨0, [⟨"260", .Ask, 26000, 10⟩]⟩ ⟨1, "260", 10⟩ =
      (Except.ok (), ⟨1, []⟩) ∧
    oo_apply_execution ⟨0, [⟨"260", .Ask, 26000, 10⟩]⟩ ⟨2, "999", 1⟩ =
      (Except.error (.OrderNotFound "999"),
       ⟨0, [⟨"260", .Ask, 26000, 10⟩]⟩) := by
  constructor
  · have h := ((open_orders_execution_spec ⟨0, [⟨"260", .Ask, 26000, 10⟩]⟩
      ⟨1, "260", 10⟩).2 0 ⟨"260", .Ask, 26000, 10⟩ rfl rfl
      (fun j hj => absurd hj (Nat.not_lt_zero j))).2 le_rfl
    rw [h]
    norm_num
  · exact (open_orders_execution_spec ⟨0, [⟨"260", .Ask, 26000, 10⟩]⟩
      ⟨2, "999", 1⟩).1 (by decide)

/-- Claim C9: on a container without the order's id, Create(ts1, order)
followed by Delete(ts2, order.id) both succeed and restore the original
orders exactly, with the timestamp set to ts2. -/
theorem open_orders_create_delete (s : OpenOrders) (ts1 ts2 : Nat) (order : OrderState)
    (h : ∀ o ∈ s.orders, o.id ≠ order.id) :
    oo_apply_create s ⟨ts1, order⟩ = (Except.ok (), ⟨ts1, s.orders ++ [order]⟩) ∧
    oo_apply_delete (oo_apply_create s ⟨ts1, order⟩).2 ⟨ts2, order.id⟩ =
      (Except.ok (), ⟨ts2, s.orders⟩) := by
  have hany : s.orders.any (fun o => decide (o.id = order.id)) = false := by
    rw [List.any_eq_false]
    intro o ho
    simpa using h o ho
  have hcreate : oo_apply_create s ⟨ts1, order⟩ =
      (Except.ok (), ⟨ts1, s.orders ++ [order]⟩) := by
    simp [oo_apply_create, hany]
  refine ⟨hcreate, ?_⟩
  rw [hcreate]
  have hfind : (s.orders ++ [order]).findIdx? (fun o => decide (o.id = order.id))
      = some s.orders.length := by
    refine findIdx?_of_first _ s.orders.length order
      (List.get?_concat_length s.orders order) (by simp) ?_
    intro j hj o ho
    rw [List.get?_append hj] at ho
    simpa using h o (List.get?_mem ho)
  simp only [oo_apply_delete, hfind]
  rw [List.eraseIdx_append_of_length_le le_rfl]
  simp

/-- Witness for `open_orders_create_delete` with one unrelated resting order. -/
theorem open_orders_create_delete_witness :
    oo_apply_delete (oo_apply_create ⟨5, [⟨"270", .Ask, 27000, 10⟩]⟩
        ⟨6, ⟨"300", .Bid, 20000, 4⟩⟩).2 ⟨7, "300"⟩ =
      (Except.ok (), ⟨7, [⟨"270", .Ask, 27000, 10⟩]⟩) :=
  (open_orders_create_delete ⟨5, [⟨"270", .Ask, 27000, 10⟩]⟩ 6 7
    ⟨"300", .Bid, 20000, 4⟩ (by decide)).2

lemma publishedMsgs_append (a b : List (PubSubEvent T)) :
    publishedMsgs (a ++ b) = publishedMsgs a ++ publishedMsgs b := by
  induction a with
  | nil => rfl
  | cons e tr ih => cases e <;> simp [publishedMsgs, ih]

lemma takeWhile_append_false {α : Type} (p : α → Bool) (x : α) (hx : p x = false) :
    ∀ (pre post : List α), (pre ++ x :: post).takeWhile p = pre.takeWhile p := by
  intro pre
  induction pre with
  | nil => intro post; simp [List.takeWhile, hx]
  | cons a t ih =>
    intro post
    cases ha : p a <;> simp [List.takeWhile_cons, ha, ih post]

lemma run_queue_unregistered (tr : List (PubSubEvent T)) :
    ∀ (s : PubSubState T) (id : SubscriptionId), id ∉ s.subscribers →
      (s.run tr).queues id = s.queues id ∧ id ∉ (s.run tr).subscribers := by
  induction tr with
  | nil => exact fun s id h => ⟨rfl, h⟩
  | cons e tr ih =>
    intro s id h
    cases e with
    | publish msg =>
      have hq : (s.publish msg).queues id = s.queues id := by
        simp [PubSubState.publish, h]
      have hs : id ∉ (s.publish msg).subscribers := h
      obtain ⟨h1, h2⟩ := ih (s.publish msg) id hs
      refine ⟨?_, h2⟩
      rw [PubSubState.run]
      rw [h1, hq]
    | unsubscribe j =>
      have hs : id ∉ (s.unsubscribe j).subscribers := by
        intro hmem
        exact h (List.mem_of_mem_filter hmem)
      obtain ⟨h1, h2⟩ := ih (s.unsubscribe j) id hs
      refine ⟨?_, h2⟩
      rw [PubSubState.run]
      exact h1

lemma run_queue_registered (tr : List (PubSubEvent T)) :
    ∀ (s : PubSubState T) (id : SubscriptionId), id ∈ s.subscribers →
      (s.run tr).queues id
        = s.queues id ++ publishedMsgs (tr.takeWhile (notUnsubFor id)) := by
  induction tr with
  | nil => intro s id _; simp [PubSubState.run, publishedMsgs]
  | cons e tr ih =>
    intro s id h
    cases e with
    | publish msg =>
      have hq : (s.publish msg).queues id = s.queues id ++ [msg] := by
        simp [PubSubState.publish, h]
      have hs : id ∈ (s.publish msg).subscribers := h
      rw [PubSubState.run, ih (s.publish msg) id hs, hq]
      simp [List.takeWhile_cons, notUnsubFor, publishedMsgs]
    | unsubscribe j =>
      by_cases hj : j = id
      · have hs : id ∉ (s.unsubscribe j).subscribers := by
          intro hmem
          have h2 := (List.mem_filter.mp hmem).2
          rw [hj] at h2
          simp at h2
        rw [PubSubState.run]
        rw [(run_queue_unregistered tr (s.unsubscribe j) id hs).1]
        have hqe : (s.unsubscribe j).queues = s.queues := rfl
        rw [hqe]
        have hnu : notUnsubFor id (PubSubEvent.unsubscribe j (T := T)) = false := by
          simp [notUnsubFor, hj]
        simp [List.takeWhile_cons, hnu, publishedMsgs]
      · have hs : id ∈ (s.unsubscribe j).subscribers :=
          List.mem_filter.mpr ⟨h, by
            simp only [ne_eq, decide_eq_true_eq]
            exact fun he => hj he.symm⟩
        rw [PubSubState.run, ih (s.unsubscribe j) id hs]
        have hq : (s.unsubscribe j).queues = s.queues := rfl
        rw [hq]
        have hnu : notUnsubFor id (PubSubEvent.unsubscribe j (T := T)) = true := by
          simp [notUnsubFor, hj]
        simp [List.takeWhile_cons, hnu, publishedMsgs]

lemma mkTopic_eq (T : Type) (N : Nat) :
    mkTopic T N = ⟨N, List.range N, fun _ => false, fun _ => []⟩ := by
  induction N with
  | zero => rfl
  | succ n ih =>
    show (mkTopic T n).subscribe.1 = _
    rw [ih, PubSubState.subscribe]
    simp only [PubSubState.mk.injEq]
    refine ⟨trivial, ?_, ?_, ?_⟩
    · rw [List.range_succ]
    · funext i; by_cases hi : i = n <;> simp [hi]
    · funext i; by_cases hi : i = n <;> simp [hi]

/-- Claim C8: starting from a topic with N subscribers, over any interleaving
of publishes and unsubscribes, a subscriber never unsubscribed receives all
published messages in publish order, and a subscriber unsubscribed at some
point receives a prefix of the messages published before its unsubscribe (in
particular, no message published at or after it). -/
theorem pubsub_prefix_delivery (T : Type) (N : Nat) (tr : List (PubSubEvent T))
    (id : SubscriptionId) (h : id < N) :
    ((∀ e ∈ tr, notUnsubFor id e = true) →
      ((mkTopic T N).run tr).queues id = publishedMsgs tr) ∧
    (∀ pre post, tr = pre ++ PubSubEvent.unsubscribe id :: post →
      ∃ rest, ((mkTopic T N).run tr).queues id ++ rest = publishedMsgs pre) := by
  have hmem : id ∈ (mkTopic T N).subscribers := by
    rw [mkTopic_eq]
    simpa using h
  have hq0 : (mkTopic T N).queues id = [] := by
    rw [mkTopic_eq]
  have hrun := run_queue_registered tr (mkTopic T N) id hmem
  rw [hq0, List.nil_append] at hrun
  constructor
  · intro hall
    rw [hrun, List.takeWhile_eq_self_iff.mpr hall]
  · intro pre post htr
    refine ⟨publishedMsgs (pre.dropWhile (notUnsubFor id)), ?_⟩
    rw [hrun, htr, takeWhile_append_false _ _ (by simp [notUnsubFor]) pre post]
    rw [← publishedMsgs_append, List.takeWhile_append_dropWhile]

/-- Witness for `pubsub_prefix_delivery`: two subscribers, two messages,
subscriber 0 unsubscribes, a third message is published; subscriber 1
receives all three, subscriber 0's queue is a prefix of the first two. -/
theorem pubsub_prefix_delivery_witness :
    ((mkTopic Nat 2).run
        [.publish 1, .publish 2, .unsubscribe 0, .publish 3]).queues 1 = [1, 2, 3] ∧
    ∃ rest, ((mkTopic Nat 2).run
        [.publish 1, .publish 2, .unsubscribe 0, .publish 3]).queues 0 ++ rest
      = publishedMsgs [PubSubEvent.publish (1 : Nat), .publish 2] :=
  ⟨(pubsub_prefix_delivery Nat 2
      [.publish 1, .publish 2, .unsubscribe 0, .publish 3] 1 (by decide)).1
      (by decide),
   (pubsub_prefix_delivery Nat 2
      [.publish 1, .publish 2, .unsubscribe 0, .publish 3] 0 (by decide)).2
      [.publish 1, .publish 2] [.publish 3] rfl⟩

lemma remainingInsert_getD (l : List OrderState) :
    ∀ (m : Price → Option Amount) (p : Price),
      ((l.foldl remainingInsert m) p).getD 0
        = (m p).getD 0 + ((l.filter (fun o => decide (o.price = p))).map
            OrderState.amount).sum := by
  induction l with
  | nil => intro m p; simp
  | cons o t ih =>
    intro m p
    rw [List.foldl_cons, ih (remainingInsert m o) p]
    by_cases hp : p = o.price
    · have hf : (o :: t).filter (fun o' => decide (o'.price = p))
          = o :: t.filter (fun o' => decide (o'.price = p)) := by
        simp [List.filter_cons, hp.symm]
      have hins : (remainingInsert m o p).getD 0 = (m p).getD 0 + o.amount := by
        rw [remainingInsert, if_pos hp, ← hp]
        cases m p <;> simp
      rw [hf, hins]
      simp only [List.map_cons, List.sum_cons]
      ring
    · have hf : (o :: t).filter (fun o' => decide (o'.price = p))
          = t.filter (fun o' => decide (o'.price = p)) := by
        simp [List.filter_cons]
        exact fun he => hp he.symm
      have hins : remainingInsert m o p = m p := by
        rw [remainingInsert, if_neg hp]
      rw [hf, hins]

lemma counterRel_seed (oo : OpenOrders) :
    CounterRel (RemainingOrders.new oo) (specOwnAt oo) := by
  intro p
  rw [RemainingOrders.new, remainingInsert_getD oo.orders (fun _ => none) p]
  simp [specOwnAt]

lemma extract_spec (m : Price → Option Amount) (c : Price → Amount)
    (offer : Offer) (hrel : CounterRel m c) (hpos : 0 ≤ offer.amount) :
    offer.amount - (RemainingOrders.extract m offer).1
      = max (offer.amount - c offer.price) 0 ∧
    CounterRel (RemainingOrders.extract m offer).2
      (fun p => if p = offer.price then max (c offer.price - offer.amount) 0 else c p) := by
  have hc := hrel offer.price
  cases hm : m offer.price with
  | none =>
    rw [hm] at hc
    simp only [Option.getD_none] at hc
    constructor
    · simp only [RemainingOrders.extract, hm]
      rw [← hc]
      simp [hpos]
    · intro p
      simp only [RemainingOrders.extract, hm]
      by_cases hp : p = offer.price
      · rw [if_pos hp, hp, hm, ← hc]
        simp [hpos]
      · rw [if_neg hp]
        exact hrel p
  | some a =>
    rw [hm] at hc
    simp only [Option.getD_some] at hc
    subst hc
    by_cases hlt : c offer.price < offer.amount
    · constructor
      · simp only [RemainingOrders.extract, hm, if_pos hlt]
        rw [max_eq_left (by linarith)]
      · intro p
        simp only [RemainingOrders.extract, hm, if_pos hlt]
        by_cases hp : p = offer.price
        · rw [if_pos hp, if_pos hp, max_eq_right (by linarith)]
          rfl
        · rw [if_neg hp, if_neg hp]
          exact hrel p
    · have hge : offer.amount ≤ c offer.price := le_of_not_lt hlt
      constructor
      · simp only [RemainingOrders.extract, hm, if_neg hlt]
        rw [max_eq_right (by linarith)]
        ring
      · intro p
        simp only [RemainingOrders.extract, hm, if_neg hlt]
        by_cases hp : p = offer.price
        · rw [if_pos hp, if_pos hp, max_eq_left (by linarith)]
          rfl
        · rw [if_neg hp, if_neg hp]
          exact hrel p

lemma findPriceAtDepthGo_eq_specWalk (depth : Amount) :
    ∀ (book : List Offer) (m : Price → Option Amount) (c : Price → Amount)
      (sum : Amount), CounterRel m c → (∀ o ∈ book, 0 ≤ o.amount) →
      findPriceAtDepthGo depth m sum book = specWalk depth c sum book := by
  intro book
  induction book with
  | nil => intro m c sum _ _; rfl
  | cons offer rest ih =>
    intro m c sum hrel hpos
    obtain ⟨hcontrib, hrel'⟩ :=
      extract_spec m c offer hrel (hpos offer (List.mem_cons_self offer rest))
    rw [findPriceAtDepthGo, specWalk]
    simp only [← hcontrib]
    by_cases hd : depth ≤ sum + (offer.amount - (RemainingOrders.extract m offer).1)
    · rw [if_pos hd, if_pos hd]
    · rw [if_neg hd, if_neg hd]
      exact ih (RemainingOrders.extract m offer).2 _ _ hrel'
        (fun o ho => hpos o (List.mem_cons_of_mem offer ho))

lemma find_price_at_depth_eq_spec (book : List Offer) (depth : Amount)
    (oo : OpenOrders) (hpos : ∀ o ∈ book, 0 ≤ o.amount) :
    find_price_at_depth book depth oo = specPriceAtDepth book depth oo :=
  findPriceAtDepthGo_eq_specWalk depth book (RemainingOrders.new oo) (specOwnAt oo) 0
    (counterRel_seed oo) hpos

/-- Claim C4: with no pending orders, the policy's target ask price is
`P_ask − tick_size` where `P_ask` is the price of the first ask at which the
cumulative sum of offer amounts — each reduced by the per-price own-order
counter seeded from the sums of own open-order amounts and drained as offers
are consumed — reaches `target_depth`, and `max_order_price` when no such
offer exists; symmetrically the target bid price is `P_bid + tick_size`, or
`min_order_price`. (Stated for books with non-negative public amounts, as
sizes are.) -/
theorem dbo_target_price_spec (td : Amount) (info : MarketInfo) (ob : Orderbook)
    (oo : OpenOrders)
    (hask : ∀ o ∈ ob.asks, 0 ≤ o.amount) (hbid : ∀ o ∈ ob.bids, 0 ≤ o.amount) :
    new_ask_price td info ob oo =
      (match specPriceAtDepth ob.asks td oo with
        | some p => p - info.tick_size
        | none => info.max_order_price) ∧
    new_bid_price td info ob oo =
      (match specPriceAtDepth ob.bids td oo with
        | some p => p + info.tick_size
        | none => info.min_order_price) := by
  constructor
  · rw [new_ask_price, find_price_at_depth_eq_spec ob.asks td oo hask]
    cases specPriceAtDepth ob.asks td oo <;> rfl
  · rw [new_bid_price, find_price_at_depth_eq_spec ob.bids td oo hbid]
    cases specPriceAtDepth ob.bids td oo <;> rfl

/-- Witness for `dbo_target_price_spec` on the scenario book with own orders
at 16000 (attributed away), target depth 1500. -/
theorem dbo_target_price_spec_witness :
    new_ask_price 1500 scenarioInfo scenarioBook ⟨0, [⟨"x", .Ask, 16000, 300⟩]⟩ =
      (match specPriceAtDepth scenarioBook.asks 1500 ⟨0, [⟨"x", .Ask, 16000, 300⟩]⟩ with
        | some p => p - scenarioInfo.tick_size
        | none => scenarioInfo.max_order_price) ∧
    new_bid_price 1500 scenarioInfo scenarioBook ⟨0, [⟨"x", .Ask, 16000, 300⟩]⟩ =
      (match specPriceAtDepth scenarioBook.bids 1500 ⟨0, [⟨"x", .Ask, 16000, 300⟩]⟩ with
        | some p => p + scenarioInfo.tick_size
        | none => scenarioInfo.min_order_price) :=
  dbo_target_price_spec 1500 scenarioInfo scenarioBook ⟨0, [⟨"x", .Ask, 16000, 300⟩]⟩
    (by intro o ho; fin_cases ho <;> norm_num)
    (by intro o ho; fin_cases ho <;> norm_num)

lemma insertIdx_findIdx_pairwise {r : Offer → Offer → Prop} {P : Offer → Bool} (x : Offer)
    (htrans : ∀ u v w, r u v → r v w → r u w)
    (hPt : ∀ o, P o = true → r x o)
    (hPf : ∀ o, P o = false → r o x) :
    ∀ (l : List Offer), l.Pairwise r →
      (l.insertIdx (l.findIdx P) x).Pairwise r := by
  intro l
  induction l with
  | nil => intro _; simp
  | cons a t ih =>
    intro hl
    rw [List.findIdx_cons]
    cases ha : P a with
    | true =>
      simp only [cond_true, List.insertIdx_zero]
      refine List.Pairwise.cons ?_ hl
      intro y hy
      rcases List.mem_cons.mp hy with hya | hyt
      · rw [hya]; exact hPt a ha
      · exact htrans x a y (hPt a ha) (List.rel_of_pairwise_cons hl hyt)
    | false =>
      simp only [cond_false, List.insertIdx_succ_cons]
      rcases List.pairwise_cons.mp hl with ⟨hat, ht⟩
      refine List.Pairwise.cons ?_ (ih ht)
      intro y hy
      rcases (List.mem_insertIdx (List.findIdx_le_length P)).mp hy with hyx | hyt
      · rw [hyx]; exact hPf a ha
      · exact hat y hyt

lemma insertIdx_findIdx_ids_nodup (l : List Offer) (x : Offer) (P : Offer → Bool)
    (hx : x.id ∉ offerIds l) (hnd : (offerIds l).Nodup) :
    (offerIds (l.insertIdx (l.findIdx P) x)).Nodup := by
  have hperm : List.Perm (l.insertIdx (l.findIdx P) x) (x :: l) :=
    List.perm_insertIdx x l (List.findIdx_le_length P)
  have : List.Perm (offerIds (l.insertIdx (l.findIdx P) x)) (x.id :: offerIds l) :=
    hperm.map Offer.id
  rw [this.nodup_iff]
  exact List.nodup_cons.mpr ⟨hx, hnd⟩

lemma eraseIdx_sorted {r : Offer → Offer → Prop} (l : List Offer) (i : Nat)
    (h : l.Pairwise r) : (l.eraseIdx i).Pairwise r :=
  h.sublist (List.eraseIdx_sublist l i)

lemma eraseIdx_ids_nodup (l : List Offer) (i : Nat)
    (h : (offerIds l).Nodup) : (offerIds (l.eraseIdx i)).Nodup :=
  h.sublist ((List.eraseIdx_sublist l i).map Offer.id)

lemma eraseIdx_first_id_not_mem (tid : OfferId) :
    ∀ (l : List Offer) (i : Nat), (offerIds l).Nodup →
      l.findIdx? (fun o => decide (o.id = tid)) = some i →
      ∀ y ∈ l.eraseIdx i, y.id ≠ tid := by
  intro l
  induction l with
  | nil => intro i _ hfind; exact absurd hfind (by simp)
  | cons a t ih =>
    intro i hnd hfind
    rcases List.nodup_cons.mp hnd with ⟨hat, hndt⟩
    cases ha : decide (a.id = tid) with
    | true =>
      have haid : a.id = tid := of_decide_eq_true ha
      rw [List.findIdx?_cons, if_pos (by simpa using haid)] at hfind
      cases hfind
      intro y hy hyid
      exact hat (by rw [haid, ← hyid]; exact List.mem_map_of_mem Offer.id hy)
    | false =>
      have haid : a.id ≠ tid := of_decide_eq_false ha
      rw [List.findIdx?_cons, if_neg (by simpa using haid), List.findIdx?_succ] at hfind
      cases hj : t.findIdx? (fun o => decide (o.id = tid)) with
      | none => rw [hj] at hfind; exact absurd hfind (by simp)
      | some j =>
        rw [hj] at hfind
        simp only [Option.map_some'] at hfind
        cases hfind
        intro y hy
        rcases List.mem_cons.mp hy with hya | hyt
        · rw [hya]; exact haid
        · exact ih j hndt hj y hyt

lemma wf_apply_create (b : Orderbook) (op : ObCreateOp) (hb : b.WellFormed)
    (hfresh : ∀ o ∈ b.getSide op.side, o.id ≠ op.id) :
    (apply_create b op).2.WellFormed := by
  obtain ⟨ha, hbd, hna, hnb⟩ := hb
  have ha' : b.asks.Pairwise (fun a b => a.price ≤ b.price) := ha
  have hbd' : b.bids.Pairwise (fun a b => b.price ≤ a.price) := hbd
  obtain ⟨ts, side, id, price, amount⟩ := op
  cases side with
  | Ask =>
    refine ⟨?_, hbd, ?_, hnb⟩
    · exact insertIdx_findIdx_pairwise (r := fun a b => a.price ≤ b.price) _
        (fun u v w h1 h2 => le_trans h1 h2)
        (fun o ho => le_of_lt (of_decide_eq_true ho))
        (fun o ho => le_of_not_lt (of_decide_eq_false ho)) b.asks ha'
    · refine insertIdx_findIdx_ids_nodup b.asks _ _ ?_ hna
      intro hmem
      obtain ⟨o, ho, hoid⟩ := List.mem_map.mp hmem
      exact hfresh o ho hoid
  | Bid =>
    refine ⟨ha, ?_, hna, ?_⟩
    · exact insertIdx_findIdx_pairwise (r := fun a b => b.price ≤ a.price) _
        (fun u v w h1 h2 => le_trans h2 h1)
        (fun o ho => le_of_lt (of_decide_eq_true ho))
        (fun o ho => le_of_not_lt (of_decide_eq_false ho)) b.bids hbd'
    · refine insertIdx_findIdx_ids_nodup b.bids _ _ ?_ hnb
      intro hmem
      obtain ⟨o, ho, hoid⟩ := List.mem_map.mp hmem
      exact hfresh o ho hoid

lemma wf_apply_delete (b : Orderbook) (op : ObDeleteOp) (hb : b.WellFormed) :
    (apply_delete b op).2.WellFormed := by
  obtain ⟨ts, side, id⟩ := op
  obtain ⟨ha, hbd, hna, hnb⟩ := hb
  cases side with
  | Ask =>
    cases hf : b.asks.findIdx? (fun o => decide (o.id = id)) with
    | none =>
      simp only [apply_delete, Orderbook.getSide, hf]
      exact ⟨ha, hbd, hna, hnb⟩
    | some i =>
      simp only [apply_delete, Orderbook.getSide, hf]
      exact ⟨eraseIdx_sorted _ _ ha, hbd, eraseIdx_ids_nodup _ _ hna, hnb⟩
  | Bid =>
    cases hf : b.bids.findIdx? (fun o => decide (o.id = id)) with
    | none =>
      simp only [apply_delete, Orderbook.getSide, hf]
      exact ⟨ha, hbd, hna, hnb⟩
    | some i =>
      simp only [apply_delete, Orderbook.getSide, hf]
      exact ⟨ha, eraseIdx_sorted _ _ hbd, hna, eraseIdx_ids_nodup _ _ hnb⟩

lemma wf_timestamp_irrelevant (b : Orderbook) (ts : Nat) (hb : b.WellFormed) :
    ({ b with timestamp := ts } : Orderbook).WellFormed := hb

lemma wf_apply_update (b : Orderbook) (op : ObUpdateOp) (hb : b.WellFormed) :
    (apply_update b op).2.WellFormed := by
  obtain ⟨ts, side, id, oprice, oamount⟩ := op
  cases side with
  | Ask =>
    cases hf : b.asks.findIdx? (fun o => decide (o.id = id)) with
    | none =>
      simp only [apply_update, Orderbook.getSide, hf]
      exact hb
    | some i =>
      simp only [apply_update, Orderbook.getSide, hf]
      rw [apply_create_eta]
      have hb1 : (b.setSide .Ask (b.asks.eraseIdx i)).WellFormed :=
        ⟨eraseIdx_sorted _ _ hb.1, hb.2.1, eraseIdx_ids_nodup _ _ hb.2.2.1, hb.2.2.2⟩
      have hfresh : ∀ o ∈ (b.setSide .Ask (b.asks.eraseIdx i)).getSide .Ask, o.id ≠ id :=
        fun o ho => eraseIdx_first_id_not_mem id b.asks i hb.2.2.1 hf o ho
      exact wf_apply_create _ _ hb1 hfresh
  | Bid =>
    cases hf : b.bids.findIdx? (fun o => decide (o.id = id)) with
    | none =>
      simp only [apply_update, Orderbook.getSide, hf]
      exact hb
    | some i =>
      simp only [apply_update, Orderbook.getSide, hf]
      rw [apply_create_eta]
      have hb1 : (b.setSide .Bid (b.bids.eraseIdx i)).WellFormed :=
        ⟨hb.1, eraseIdx_sorted _ _ hb.2.1, hb.2.2.1, eraseIdx_ids_nodup _ _ hb.2.2.2⟩
      have hfresh : ∀ o ∈ (b.setSide .Bid (b.bids.eraseIdx i)).getSide .Bid, o.id ≠ id :=
        fun o ho => eraseIdx_first_id_not_mem id b.bids i hb.2.2.2 hf o ho
      exact wf_apply_create _ _ hb1 hfresh

/-- Counterexample to claim C1 as stated: two legal creates with the same
OfferId and price on an initially well-formed (empty) book leave the ask
side with a duplicated id and a non-strictly-ascending price sequence. -/
theorem orderbook_invariants_cex :
    ((orderbook_apply_ops ⟨0, [], []⟩
        [.Create ⟨1, .Ask, "A", 100, 1⟩, .Create ⟨2, .Ask, "A", 100, 1⟩]).asks.map Offer.id
      = ["A", "A"]) ∧
    ¬ ((orderbook_apply_ops ⟨0, [], []⟩
        [.Create ⟨1, .Ask, "A", 100, 1⟩, .Create ⟨2, .Ask, "A", 100, 1⟩]).asks.map
          Offer.id).Nodup ∧
    ¬ (orderbook_apply_ops ⟨0, [], []⟩
        [.Create ⟨1, .Ask, "A", 100, 1⟩, .Create ⟨2, .Ask, "A", 100, 1⟩]).asks.Pairwise
          (fun x y => x.price < y.price) := by
  have hbook : orderbook_apply_ops ⟨0, [], []⟩
      [.Create ⟨1, .Ask, "A", 100, 1⟩, .Create ⟨2, .Ask, "A", 100, 1⟩]
      = ⟨2, [⟨"A", 100, 1⟩, ⟨"A", 100, 1⟩], []⟩ := by
    with_unfolding_all rfl
  refine ⟨by rw [hbook]; rfl, ?_, ?_⟩
  · rw [hbook]
    decide
  · rw [hbook]
    intro hp
    have := List.rel_of_pairwise_cons hp (List.mem_cons_self _ _)
    exact absurd this (by norm_num)

/-- Claim C1, amended: for every op sequence that is legal in the sense that
snapshots install well-formed books and each create's OfferId is fresh on its
side, starting from a well-formed book, the resulting book has asks
non-strictly price-ascending and bids non-strictly price-descending (ties at
a price retain insertion order, so the order is not strict), ids unique
within each side, and its timestamp equal to the timestamp of the last
successfully applied op (the initial timestamp when none succeeded). -/
theorem orderbook_writer_invariants (b : Orderbook) (ops : List OrderbookWriteOp)
    (hb : b.WellFormed) (hl : ObLegal b ops) :
    (orderbook_apply_ops b ops).WellFormed ∧
    (orderbook_apply_ops b ops).timestamp = (appliedTs b ops).getLastD b.timestamp := by
  induction ops generalizing b with
  | nil => exact ⟨hb, rfl⟩
  | cons op ops ih =>
    obtain ⟨h1, hrest⟩ := hl
    have hb' : (orderbook_apply b op).2.WellFormed := by
      cases op with
      | Snapshot ob => exact h1
      | Create cop => exact wf_apply_create b cop hb h1
      | Update uop => exact wf_apply_update b uop hb
      | Delete dop => exact wf_apply_delete b dop hb
    obtain ⟨hwf, hts⟩ := ih (orderbook_apply b op).2 hb' hrest
    refine ⟨hwf, ?_⟩
    show (orderbook_apply_ops (orderbook_apply b op).2 ops).timestamp = _
    rcases hres : (orderbook_apply b op).1 with e | u
    · have hsnd : (orderbook_apply b op).2 = b := orderbook_apply_error_snd b op e hres
      have hpair : orderbook_apply b op = (Except.error e, (orderbook_apply b op).2) := by
        rw [← hres]
      have happ : appliedTs b (op :: ops) = appliedTs (orderbook_apply b op).2 ops := by
        rw [appliedTs, hpair]
      rw [happ, hts, hsnd]
    · cases u
      have hpair : orderbook_apply b op = (Except.ok (), (orderbook_apply b op).2) := by
        rw [← hres]
      have happ : appliedTs b (op :: ops)
          = op.opTimestamp :: appliedTs (orderbook_apply b op).2 ops := by
        rw [appliedTs, hpair]
      rw [happ, List.getLastD_cons, hts,
        orderbook_apply_ok_timestamp b op hres]

/-- Witness for `orderbook_writer_invariants` on the spec's scenario 1. -/
theorem orderbook_writer_invariants_witness :
    (orderbook_apply_ops ⟨0, [], []⟩ scenario1Ops).WellFormed ∧
    (orderbook_apply_ops ⟨0, [], []⟩ scenario1Ops).timestamp
      = (appliedTs ⟨0, [], []⟩ scenario1Ops).getLastD 0 :=
  orderbook_writer_invariants ⟨0, [], []⟩ scenario1Ops
    ⟨List.Pairwise.nil, List.Pairwise.nil, List.nodup_nil, List.nodup_nil⟩
    ⟨by with_unfolding_all decide,
     by with_unfolding_all decide,
     by with_unfolding_all decide, trivial⟩

end MarketMaker
